import Mathlib

/-
Shallow embedding of the glyph rendering cache / atlas packing / draw-command
batching pipeline of examples/helpers/text_canvas.rs (femtovg example code).

Machine floats (f32 pen positions, sub-pixel offsets) are modelled as
rationals; unsigned saturating casts (`as u8`, `as u32` on a truncated float)
are modelled explicitly. Fallible code paths (Rust panics via `unwrap`) are
modelled with `Option`: a `none` result of a pipeline stage is an aborted
(panicking) computation.
-/

namespace TextCanvas

/-- 8-bit RGBA pixel (crate rgb, RGBA8). -/
structure RGBA8 where
  r : Nat
  g : Nat
  b : Nat
  a : Nat
  deriving DecidableEq, Repr

/-- RGBA8::new(0, 0, 0, 0), the fully transparent pixel. -/
def RGBA8.clear : RGBA8 := ⟨0, 0, 0, 0⟩

/-- const TEXTURE_SIZE: usize = 512. -/
def TEXTURE_SIZE : Nat := 512

/-- Truncation toward zero of a rational, modelling f32::trunc. -/
def ratTrunc (q : ℚ) : ℤ := if 0 ≤ q then ⌊q⌋ else ⌈q⌉

/-- Fractional part x - x.trunc(), modelling f32::fract. -/
def fractQ (q : ℚ) : ℚ := q - (ratTrunc q : ℚ)

/-- Saturating cast of a truncated float to u8 (Rust float-to-int as-cast). -/
def u8cast (z : ℤ) : Nat := (min (max z 0) 255).toNat

/-- Saturating cast of a truncated float to u32 (Rust float-to-int as-cast). -/
def u32cast (z : ℤ) : Nat := (min (max z 0) (2 ^ 32 - 1)).toNat

/-- A shelf of the atlas packer: its height and the width already used. -/
structure Shelf where
  h : Nat
  used : Nat
  deriving DecidableEq, Repr

/-- Modelled from the spec: femtovg::Atlas, the 2D bin packer, is not under
src/ (only its callers are). Per the spec it is a deterministic rectangle
packer over a fixed width × height canvas whose returned rectangles are fully
contained in bounds and never overlap, returning none when no space remains;
modelled here as a shelf packer (shelves stacked from y = 0). -/
structure Atlas where
  width : Nat
  height : Nat
  shelves : List Shelf
  deriving DecidableEq, Repr

/-- Atlas::new(w, h): an empty atlas. -/
def Atlas.new (w h : Nat) : Atlas := ⟨w, h, []⟩

/-- Shelf-packer worker: place a w × h rect in the first shelf that fits,
else open a new shelf below the existing ones. -/
def addRectGo (width height w h : Nat) : Nat → List Shelf → Option ((Nat × Nat) × List Shelf)
  | curY, [] =>
      if w ≤ width ∧ curY + h ≤ height then some ((0, curY), [⟨h, w⟩]) else none
  | curY, s :: rest =>
      if s.used + w ≤ width ∧ h ≤ s.h then
        some ((s.used, curY), ⟨s.h, s.used + w⟩ :: rest)
      else
        match addRectGo width height w h (curY + s.h) rest with
        | some (p, rest2) => some (p, s :: rest2)
        | none => none

/-- Modelled from the spec: Atlas::add_rect(w, h). Returns the placement and
the updated atlas, or none when the rect does not fit (the atlas unchanged). -/
def Atlas.add_rect (a : Atlas) (w h : Nat) : Option ((Nat × Nat) × Atlas) :=
  match addRectGo a.width a.height w h 0 a.shelves with
  | some (p, shelves2) => some (p, ⟨a.width, a.height, shelves2⟩)
  | none => none

/-- GlyphCacheKey: the rendering fingerprint (text_canvas.rs lines 42-49). -/
structure GlyphCacheKey where
  glyph_id : Nat
  font_index : Nat
  size : Nat
  subpixel_offset_x : Nat
  subpixel_offset_y : Nat
  deriving DecidableEq, Repr

/-- GlyphCacheKey::new: quantizes font size and sub-pixel offset by
(v * 10.0).trunc() with a saturating unsigned cast (lines 51-61). -/
def GlyphCacheKey.new (glyph_id font_index : Nat) (font_size : ℚ)
    (subpixel_offset : ℚ × ℚ) : GlyphCacheKey :=
  { glyph_id := glyph_id
    font_index := font_index
    size := u32cast (ratTrunc (font_size * 10))
    subpixel_offset_x := u8cast (ratTrunc (subpixel_offset.1 * 10))
    subpixel_offset_y := u8cast (ratTrunc (subpixel_offset.2 * 10)) }

/-- RenderedGlyph: the cache value (lines 63-73). -/
structure RenderedGlyph where
  texture_index : Nat
  width : Nat
  height : Nat
  offset_x : ℤ
  offset_y : ℤ
  atlas_x : Nat
  atlas_y : Nat
  color_glyph : Bool
  deriving DecidableEq, Repr

/-- FontTexture: one fixed-size GPU texture and its packer (lines 83-86).
The ImageId handle is modelled as the index the canvas assigned at creation. -/
structure FontTexture where
  atlas : Atlas
  image_id : Nat
  deriving DecidableEq, Repr

/-- RenderCache (lines 75-79). The HashMap is modelled as an association
list in insertion order; entries are only ever appended, never overwritten. -/
structure RenderCache where
  rendered_glyphs : List (GlyphCacheKey × Option RenderedGlyph)
  glyph_textures : List FontTexture
  deriving DecidableEq, Repr

/-- First-match association-list lookup (HashMap::get semantics). -/
def lookupKey : List (GlyphCacheKey × Option RenderedGlyph) → GlyphCacheKey →
    Option (Option RenderedGlyph)
  | [], _ => none
  | (k, v) :: rest, key => if k = key then some v else lookupKey rest key

/-- An image owned by the canvas, as created by create_image. -/
structure Img where
  width : Nat
  height : Nat
  pixels : List RGBA8
  deriving DecidableEq, Repr

/-- One update_image call: a region upload into an existing image. -/
structure Upload where
  image_id : Nat
  x : Nat
  y : Nat
  w : Nat
  h : Nat
  pixels : List RGBA8
  deriving DecidableEq, Repr

/-- The external renderer (femtovg Canvas) as seen by this code: images
created so far (create_image returns the next index as the handle) and the
log of region uploads (update_image). -/
structure CanvasState where
  images : List Img
  uploads : List Upload
  deriving DecidableEq, Repr

/-- canvas.create_image: appends the image, returns its handle. -/
def create_image (c : CanvasState) (img : Img) : Nat × CanvasState :=
  (c.images.length, ⟨c.images ++ [img], c.uploads⟩)

/-- canvas.update_image: records a region upload. -/
def update_image (c : CanvasState) (image_id x y w h : Nat) (pixels : List RGBA8) :
    CanvasState :=
  ⟨c.images, c.uploads ++ [⟨image_id, x, y, w, h, pixels⟩]⟩

/-- Whole mutable state threaded through render_glyph_run: the RenderCache,
the canvas, and an instrumentation counter of invocations of the
or_insert_with rendering closure. -/
structure St where
  cache : RenderCache
  canvas : CanvasState
  renderCalls : Nat
  deriving DecidableEq, Repr

/-- swash zeno::Placement: bitmap bounding box reported by the rasterizer. -/
structure Placement where
  left : ℤ
  top : ℤ
  width : Nat
  height : Nat
  deriving DecidableEq, Repr

/-- swash scale::image::Content. -/
inductive Content where
  | Mask
  | Color
  | SubpixelMask
  deriving DecidableEq, Repr

/-- The image returned by the external swash Render pipeline. -/
structure SwashImage where
  placement : Placement
  content : Content
  data : List Nat
  deriving DecidableEq, Repr

/-- data.chunks_exact(4) repacked as RGBA8 pixels. -/
def chunk4 : List Nat → List RGBA8
  | r :: g :: b :: a :: rest => ⟨r, g, b, a⟩ :: chunk4 rest
  | _ => []

/-- render_glyph (lines 344-385): normalizes the scaler output into an RGBA
buffer plus placement and color flag. The scaler result is an Option; the
source unwraps it, so a none scaler result is a panic (none here), and the
Content::SubpixelMask arm is unreachable! (also a panic). -/
def render_glyph (scalerOut : Option SwashImage) :
    Option (List RGBA8 × Placement × Bool) :=
  match scalerOut with
  | none => none
  | some img =>
    match img.content with
    | Content.Mask => some (img.data.map (fun c => ⟨c, 0, 0, 0⟩), img.placement, false)
    | Content.Color => some (chunk4 img.data, img.placement, true)
    | Content.SubpixelMask => none

/-- First-fit scan over the texture pool (lines 255-261): try each texture's
atlas in index order, return the index, placement and updated pool on the
first add_rect that succeeds. -/
def findFit : List FontTexture → Nat → Nat → Option ((Nat × Nat × Nat) × List FontTexture)
  | [], _, _ => none
  | t :: rest, w, h =>
    match t.atlas.add_rect w h with
    | some ((x, y), atlas2) => some ((0, x, y), ⟨atlas2, t.image_id⟩ :: rest)
    | none =>
      match findFit rest w h with
      | some ((i, x, y), rest2) => some ((i + 1, x, y), t :: rest2)
      | none => none

/-- The transparent TEXTURE_SIZE × TEXTURE_SIZE init image of a fresh
FontTexture (lines 268-276). -/
def freshImg : Img :=
  ⟨TEXTURE_SIZE, TEXTURE_SIZE, List.replicate (TEXTURE_SIZE * TEXTURE_SIZE) RGBA8.clear⟩

/-- Glyph placement (lines 255-282): first-fit over the existing pool; when
every atlas refuses, create a brand-new TEXTURE_SIZE texture initialized to
transparent, append it, and allocate in its fresh atlas — the add_rect there
is unwrapped, so its failure (an oversized glyph) is a panic (none). -/
def placeGlyph (st : St) (w h : Nat) : Option ((Nat × Nat × Nat) × St) :=
  match findFit st.cache.glyph_textures w h with
  | some ((texture_index, x, y), pool2) =>
    some ((texture_index, x, y), ⟨⟨st.cache.rendered_glyphs, pool2⟩, st.canvas, st.renderCalls⟩)
  | none =>
    let atlas := Atlas.new TEXTURE_SIZE TEXTURE_SIZE
    let (image_id, canvas2) := create_image st.canvas freshImg
    let texture_index := st.cache.glyph_textures.length
    match atlas.add_rect w h with
    | none => none
    | some ((x, y), atlas2) =>
      some ((texture_index, x, y),
        ⟨⟨st.cache.rendered_glyphs, st.cache.glyph_textures ++ [⟨atlas2, image_id⟩]⟩,
          canvas2, st.renderCalls⟩)

/-- Default texture for out-of-range getD reads (indexing in the source can
never be out of range; see the cacheInv invariant below). -/
def dflTex : FontTexture := ⟨Atlas.new 0 0, 0⟩

/-- glyph_textures[i].image_id (the indexing at lines 287 and 314). -/
def imageIdAt (st : St) (i : Nat) : Nat :=
  (st.cache.glyph_textures.getD i dflTex).image_id

/-- Body of the or_insert_with closure (lines 249-302): count the
invocation, rasterize, place (growing the pool if needed), upload the pixels,
and produce the cache value. A panic anywhere gives none. -/
def missBody (st : St) (scalerOut : Option SwashImage) :
    Option (Option RenderedGlyph × St) :=
  let st1 : St := ⟨st.cache, st.canvas, st.renderCalls + 1⟩
  match render_glyph scalerOut with
  | none => none
  | some (content, placement, is_color) =>
    match placeGlyph st1 placement.width placement.height with
    | none => none
    | some ((texture_index, atlas_alloc_x, atlas_alloc_y), st2) =>
      let canvas2 := update_image st2.canvas (imageIdAt st2 texture_index)
        atlas_alloc_x atlas_alloc_y placement.width placement.height content
      some (some
        { texture_index := texture_index
          width := placement.width
          height := placement.height
          offset_x := placement.left
          offset_y := placement.top
          atlas_x := atlas_alloc_x
          atlas_y := atlas_alloc_y
          color_glyph := is_color },
        ⟨st2.cache, canvas2, st2.renderCalls⟩)

/-- cache.rendered_glyphs.entry(cache_key).or_insert_with(..) (line 249):
on a hit return the stored value unchanged; on a miss run the closure and
append the computed entry. -/
def resolveGlyph (st : St) (key : GlyphCacheKey) (scalerOut : Option SwashImage) :
    Option (Option RenderedGlyph × St) :=
  match lookupKey st.cache.rendered_glyphs key with
  | some v => some (v, st)
  | none =>
    match missBody st scalerOut with
    | none => none
    | some (v, st2) =>
      some (v, ⟨⟨st2.cache.rendered_glyphs ++ [(key, v)], st2.cache.glyph_textures⟩,
        st2.canvas, st2.renderCalls⟩)

/-- femtovg Quad: destination rectangle and normalized atlas coordinates. -/
structure Quad where
  x0 : ℚ
  y0 : ℚ
  x1 : ℚ
  y1 : ℚ
  s0 : ℚ
  t0 : ℚ
  s1 : ℚ
  t1 : ℚ
  deriving DecidableEq, Repr

/-- The quad computed for one non-blank glyph (lines 318-329). -/
def glyphQuad (glyph_x glyph_y : ℚ) (offset : ℚ × ℚ) (rendered : RenderedGlyph) : Quad :=
  let it : ℚ := 1 / (TEXTURE_SIZE : ℚ)
  let x0 := glyph_x + (rendered.offset_x : ℚ) - offset.1
  let y0 := glyph_y - (rendered.offset_y : ℚ) - offset.2
  { x0 := x0
    y0 := y0
    x1 := x0 + (rendered.width : ℚ)
    y1 := y0 + (rendered.height : ℚ)
    s0 := (rendered.atlas_x : ℚ) * it
    t0 := (rendered.atlas_y : ℚ) * it
    s1 := ((rendered.atlas_x + rendered.width : Nat) : ℚ) * it
    t1 := ((rendered.atlas_y + rendered.height : Nat) : ℚ) * it }

/-- femtovg DrawCommand: a texture handle and its quads. -/
structure DrawCommand where
  image_id : Nat
  quads : List Quad
  deriving DecidableEq, Repr

/-- The per-kind command map (HashMap keyed by texture index), modelled as
an association list in insertion order. -/
def CmdMap : Type := List (Nat × DrawCommand)

/-- cmd_map.entry(texture_index).or_insert_with(..) followed by
cmd.quads.push(q) (lines 313-331). -/
def cmdInsert : CmdMap → Nat → Nat → Quad → CmdMap
  | [], ti, image_id, q => [(ti, ⟨image_id, [q]⟩)]
  | (k, c) :: rest, ti, image_id, q =>
    if k = ti then (k, ⟨c.image_id, c.quads ++ [q]⟩) :: rest
    else (k, c) :: cmdInsert rest ti image_id q

/-- One positioned glyph of a glyph run, as reported by parley. -/
structure Glyph where
  id : Nat
  x : ℚ
  y : ℚ
  advance : ℚ
  deriving DecidableEq, Repr

/-- The per-run constants of render_glyph_run: the fill_text origin, the
run's offset and baseline, the font identity and size, and the external
scaler (deterministic in glyph id and fractional offset). -/
structure RunCtx where
  x : ℚ
  y : ℚ
  run_offset : ℚ
  baseline : ℚ
  font_index : Nat
  font_size : ℚ
  scaler : Nat → ℚ × ℚ → Option SwashImage

/-- let glyph_x = x + run_x + glyph.x (line 239). -/
def glyphX (ctx : RunCtx) (run_x : ℚ) (g : Glyph) : ℚ := ctx.x + run_x + g.x

/-- let glyph_y = y + run_y - glyph.y (line 240). -/
def glyphY (ctx : RunCtx) (g : Glyph) : ℚ := ctx.y + ctx.baseline - g.y

/-- let offset = Vector::new(glyph_x.fract(), glyph_y.fract()) (line 245). -/
def offsetOf (ctx : RunCtx) (run_x : ℚ) (g : Glyph) : ℚ × ℚ :=
  (fractQ (glyphX ctx run_x g), fractQ (glyphY ctx g))

/-- let cache_key = GlyphCacheKey::new(..) (line 247). -/
def keyOf (ctx : RunCtx) (run_x : ℚ) (g : Glyph) : GlyphCacheKey :=
  GlyphCacheKey.new g.id ctx.font_index ctx.font_size (offsetOf ctx run_x g)

/-- The glyph loop of render_glyph_run (lines 238-332): thread the pen
position, the two command maps and the state through the glyphs; a cached
none is skipped (continue), a panic aborts the whole run. -/
def runLoop (ctx : RunCtx) : St → ℚ → CmdMap → CmdMap → List Glyph →
    Option (CmdMap × CmdMap × St × ℚ)
  | st, run_x, am, cm, [] => some (am, cm, st, run_x)
  | st, run_x, am, cm, g :: gs =>
    match resolveGlyph st (keyOf ctx run_x g) (ctx.scaler g.id (offsetOf ctx run_x g)) with
    | none => none
    | some (none, st2) => runLoop ctx st2 (run_x + g.advance) am cm gs
    | some (some rendered, st2) =>
      let q := glyphQuad (glyphX ctx run_x g) (glyphY ctx g) (offsetOf ctx run_x g) rendered
      if rendered.color_glyph then
        runLoop ctx st2 (run_x + g.advance) am
          (cmdInsert cm rendered.texture_index (imageIdAt st2 rendered.texture_index) q) gs
      else
        runLoop ctx st2 (run_x + g.advance)
          (cmdInsert am rendered.texture_index (imageIdAt st2 rendered.texture_index) q) cm gs

/-- femtovg GlyphDrawCommands. -/
structure GlyphDrawCommands where
  alpha_glyphs : List DrawCommand
  color_glyphs : List DrawCommand
  deriving DecidableEq, Repr

/-- render_glyph_run (lines 199-342): run the glyph loop from the run's
offset with empty command maps and collect the two maps' values (the
emitted batched draw commands). The source's into_values() iterates a std
HashMap in an unspecified per-map order; this function fixes one admissible
order (insertion order) — the faithful, order-nondeterministic emission
relation is RunEmits below, defined over the same loop. -/
def render_glyph_run (ctx : RunCtx) (st : St) (glyphs : List Glyph) :
    Option (GlyphDrawCommands × St) :=
  match runLoop ctx st ctx.run_offset [] [] glyphs with
  | none => none
  | some (am, cm, st2, _) => some (⟨am.map Prod.snd, cm.map Prod.snd⟩, st2)

/-- The emission relation of render_glyph_run with the HashMap contract
taken at face value (lines 208-209, 334-341): the glyph loop itself is
deterministic, but alpha_cmd_map.into_values() and color_cmd_map
.into_values() visit a freshly created, randomly seeded std HashMap in an
unspecified order, so the program may emit each kind's commands as any
permutation of that kind's map values. -/
def RunEmits (ctx : RunCtx) (st : St) (glyphs : List Glyph)
    (cmds : GlyphDrawCommands) (st2 : St) : Prop :=
  ∃ am cm rx2, runLoop ctx st ctx.run_offset [] [] glyphs = some (am, cm, st2, rx2) ∧
    cmds.alpha_glyphs.Perm (am.map Prod.snd) ∧
    cmds.color_glyphs.Perm (cm.map Prod.snd)

/-- Specification-side trace of the same loop: the (texture index, is
color) pair of every glyph the run actually draws (cache-resolved,
non-blank), in glyph order, with the final state. -/
def usedPairs (ctx : RunCtx) : St → ℚ → List Glyph → Option (List (Nat × Bool) × St)
  | st, _, [] => some ([], st)
  | st, run_x, g :: gs =>
    match resolveGlyph st (keyOf ctx run_x g) (ctx.scaler g.id (offsetOf ctx run_x g)) with
    | none => none
    | some (none, st2) => usedPairs ctx st2 (run_x + g.advance) gs
    | some (some rendered, st2) =>
      match usedPairs ctx st2 (run_x + g.advance) gs with
      | none => none
      | some (ps, st3) => some ((rendered.texture_index, rendered.color_glyph) :: ps, st3)

/-! ### Helper lemmas about the association-list cache -/

theorem lookupKey_append_left {l l2 : List (GlyphCacheKey × Option RenderedGlyph)}
    {k : GlyphCacheKey} {v : Option RenderedGlyph} (h : lookupKey l k = some v) :
    lookupKey (l ++ l2) k = some v := by
  induction l with
  | nil => simp [lookupKey] at h
  | cons p rest ih =>
    by_cases hk : p.1 = k
    · simpa [lookupKey, hk] using h
    · simp only [lookupKey, hk, if_neg, List.cons_append] at h ⊢
      exact ih h

theorem lookupKey_append_self {l : List (GlyphCacheKey × Option RenderedGlyph)}
    {k : GlyphCacheKey} {v : Option RenderedGlyph} (h : lookupKey l k = none) :
    lookupKey (l ++ [(k, v)]) k = some v := by
  induction l with
  | nil => simp [lookupKey]
  | cons p rest ih =>
    by_cases hk : p.1 = k
    · simp [lookupKey, hk] at h
    · simp only [lookupKey, hk, if_neg, List.cons_append] at h ⊢
      exact ih h

theorem lookupKey_append_cases {l : List (GlyphCacheKey × Option RenderedGlyph)}
    {k key : GlyphCacheKey} {v w : Option RenderedGlyph}
    (h : lookupKey (l ++ [(key, v)]) k = some w) :
    lookupKey l k = some w ∨ (lookupKey l k = none ∧ k = key ∧ w = v) := by
  induction l with
  | nil =>
    simp only [List.nil_append, lookupKey] at h
    by_cases hk : key = k
    · simp only [hk, if_pos rfl] at h
      exact Or.inr ⟨rfl, hk.symm, (Option.some.injEq _ _ ▸ h).symm⟩
    · simp [hk, lookupKey] at h
  | cons p rest ih =>
    by_cases hk : p.1 = k
    · simp only [List.cons_append, lookupKey, hk, if_pos rfl] at h ⊢
      exact Or.inl h
    · simp only [List.cons_append, lookupKey, hk, if_neg, not_false_iff] at h ⊢
      exact ih h

/-! ### Inversion lemmas for the miss path -/

theorem placeGlyph_eq_some {st : St} {w h i x y : Nat} {st2 : St}
    (hp : placeGlyph st w h = some ((i, x, y), st2)) :
    (∃ pool2, findFit st.cache.glyph_textures w h = some ((i, x, y), pool2) ∧
      st2 = ⟨⟨st.cache.rendered_glyphs, pool2⟩, st.canvas, st.renderCalls⟩) ∨
    (findFit st.cache.glyph_textures w h = none ∧
      ∃ a2, (Atlas.new TEXTURE_SIZE TEXTURE_SIZE).add_rect w h = some ((x, y), a2) ∧
        i = st.cache.glyph_textures.length ∧
        st2 = ⟨⟨st.cache.rendered_glyphs,
            st.cache.glyph_textures ++ [⟨a2, st.canvas.images.length⟩]⟩,
          ⟨st.canvas.images ++ [freshImg], st.canvas.uploads⟩, st.renderCalls⟩) := by
  unfold placeGlyph at hp
  split at hp
  next i2 x2 y2 pool2 heq =>
    simp only [Option.some.injEq, Prod.mk.injEq] at hp
    obtain ⟨⟨hi, hx, hy⟩, hst⟩ := hp
    subst hi hx hy
    exact Or.inl ⟨pool2, heq, hst.symm⟩
  next heq =>
    dsimp only [create_image] at hp
    split at hp
    · exact absurd hp (by simp)
    next x3 y3 a2 heq2 =>
      simp only [Option.some.injEq, Prod.mk.injEq] at hp
      obtain ⟨⟨hi, hx, hy⟩, hst⟩ := hp
      subst hx hy
      exact Or.inr ⟨heq, a2, heq2, hi.symm, hst.symm⟩

theorem missBody_eq_some {st : St} {s : Option SwashImage}
    {v : Option RenderedGlyph} {st2 : St} (h : missBody st s = some (v, st2)) :
    ∃ content placement is_color i ax ay st3,
      render_glyph s = some (content, placement, is_color) ∧
      placeGlyph ⟨st.cache, st.canvas, st.renderCalls + 1⟩ placement.width placement.height
        = some ((i, ax, ay), st3) ∧
      v = some ⟨i, placement.width, placement.height, placement.left, placement.top,
        ax, ay, is_color⟩ ∧
      st2 = ⟨st3.cache,
        update_image st3.canvas (imageIdAt st3 i) ax ay placement.width placement.height content,
        st3.renderCalls⟩ := by
  unfold missBody at h
  dsimp only at h
  split at h
  · exact absurd h (by simp)
  next content placement is_color heq =>
    split at h
    · exact absurd h (by simp)
    next i ax ay st3 heq2 =>
      simp only [Option.some.injEq, Prod.mk.injEq] at h
      exact ⟨content, placement, is_color, i, ax, ay, st3, heq, heq2, h.1.symm, h.2.symm⟩

theorem resolveGlyph_hit {st : St} {key : GlyphCacheKey} {s : Option SwashImage}
    {v : Option RenderedGlyph} (h : lookupKey st.cache.rendered_glyphs key = some v) :
    resolveGlyph st key s = some (v, st) := by
  unfold resolveGlyph
  rw [h]

theorem resolveGlyph_eq_some {st : St} {key : GlyphCacheKey} {s : Option SwashImage}
    {v : Option RenderedGlyph} {st1 : St} (h : resolveGlyph st key s = some (v, st1)) :
    (lookupKey st.cache.rendered_glyphs key = some v ∧ st1 = st) ∨
    (lookupKey st.cache.rendered_glyphs key = none ∧
      ∃ st2, missBody st s = some (v, st2) ∧
        st1 = ⟨⟨st2.cache.rendered_glyphs ++ [(key, v)], st2.cache.glyph_textures⟩,
          st2.canvas, st2.renderCalls⟩) := by
  unfold resolveGlyph at h
  split at h
  next v0 heq =>
    simp only [Option.some.injEq, Prod.mk.injEq] at h
    exact Or.inl ⟨h.1 ▸ heq, h.2.symm⟩
  next heq =>
    split at h
    · exact absurd h (by simp)
    next v0 st2 heq2 =>
      simp only [Option.some.injEq, Prod.mk.injEq] at h
      obtain ⟨hv, hst⟩ := h
      subst hv
      exact Or.inr ⟨heq, st2, heq2, hst.symm⟩

theorem missBody_cache_and_calls {st : St} {s : Option SwashImage}
    {v : Option RenderedGlyph} {st2 : St} (h : missBody st s = some (v, st2)) :
    st2.cache.rendered_glyphs = st.cache.rendered_glyphs ∧
    st2.renderCalls = st.renderCalls + 1 := by
  obtain ⟨content, placement, is_color, i, ax, ay, st3, hr, hp, hv, hst⟩ := missBody_eq_some h
  subst hst
  rcases placeGlyph_eq_some hp with ⟨pool2, hf, hst3⟩ | ⟨hf, a2, ha, hi, hst3⟩ <;>
    subst hst3 <;> exact ⟨rfl, rfl⟩

/-! ### C1: memoization of the rendered-glyph cache -/

/-- C1: resolving the same fingerprint a second time is a pure cache hit:
it returns the identical stored value with the state completely unchanged
(no rasterization, no atlas allocation, no upload), and across both
resolutions the rendering closure ran at most once. -/
theorem get_or_render_memoizes (st : St) (key : GlyphCacheKey)
    (s1 s2 : Option SwashImage) (v : Option RenderedGlyph) (st1 : St)
    (h : resolveGlyph st key s1 = some (v, st1)) :
    resolveGlyph st1 key s2 = some (v, st1) ∧
    st1.renderCalls ≤ st.renderCalls + 1 := by
  rcases resolveGlyph_eq_some h with ⟨hl, hst⟩ | ⟨hl, st2, hm, hst⟩
  · subst hst
    exact ⟨resolveGlyph_hit hl, by omega⟩
  · obtain ⟨hcache, hcalls⟩ := missBody_cache_and_calls hm
    subst hst
    constructor
    · refine resolveGlyph_hit ?_
      show lookupKey (st2.cache.rendered_glyphs ++ [(key, v)]) key = some v
      rw [hcache]
      exact lookupKey_append_self hl
    · show st2.renderCalls ≤ st.renderCalls + 1
      omega

/-- Fixture: the empty pipeline state. -/
def emptySt : St := ⟨⟨[], []⟩, ⟨[], []⟩, 0⟩

/-- Fixture: a 2 × 2 monochrome scaler output. -/
def maskImg : SwashImage := ⟨⟨1, 2, 2, 2⟩, Content.Mask, [10, 20, 30, 40]⟩

/-- Fixture: a concrete fingerprint. -/
def key0 : GlyphCacheKey := ⟨7, 0, 160, 0, 0⟩

/-- Fixture: the result of resolving key0 once from the empty state. -/
def memoRes : Option RenderedGlyph × St :=
  (resolveGlyph emptySt key0 (some maskImg)).getD (none, emptySt)

/-- Witness for C1 at a concrete input: after one resolution from the empty
state, a second resolution (even with a failing scaler) returns the identical
value and state, and the closure ran at most once. -/
theorem get_or_render_memoizes_witness :
    resolveGlyph memoRes.2 key0 none = some (memoRes.1, memoRes.2) ∧
    memoRes.2.renderCalls ≤ emptySt.renderCalls + 1 :=
  get_or_render_memoizes emptySt key0 (some maskImg) none memoRes.1 memoRes.2 (by rfl)

/-! ### C6: sub-pixel bucketing -/

/-- C6: fractional pen offsets 0.04 and 0.06 quantize to the same cache key,
while 0.04 and 0.15 quantize to different keys, all other fields equal. -/
theorem subpixel_bucket_quantization (gid fi : Nat) (size oy : ℚ) :
    GlyphCacheKey.new gid fi size (1/25, oy) = GlyphCacheKey.new gid fi size (3/50, oy) ∧
    GlyphCacheKey.new gid fi size (1/25, oy) ≠ GlyphCacheKey.new gid fi size (3/20, oy) := by
  constructor
  · simp only [GlyphCacheKey.new, GlyphCacheKey.mk.injEq, and_true, true_and]
    norm_num [u8cast, ratTrunc]
  · intro hc
    have hx := congrArg GlyphCacheKey.subpixel_offset_x hc
    simp only [GlyphCacheKey.new] at hx
    norm_num [u8cast, ratTrunc] at hx

/-! ### C10: pixel snapping of the destination quad -/

/-- C10: for a non-negative pen position the quad's top-left corner is
pixel-snapped: the fractional offset is subtracted back out, leaving
x0 = floor(pen x) + bitmap left and y0 = floor(pen y) - bitmap top. -/
theorem quad_pixel_snapped (glyph_x glyph_y : ℚ) (rendered : RenderedGlyph)
    (hx : 0 ≤ glyph_x) (hy : 0 ≤ glyph_y) :
    (glyphQuad glyph_x glyph_y (fractQ glyph_x, fractQ glyph_y) rendered).x0
      = (⌊glyph_x⌋ : ℚ) + (rendered.offset_x : ℚ) ∧
    (glyphQuad glyph_x glyph_y (fractQ glyph_x, fractQ glyph_y) rendered).y0
      = (⌊glyph_y⌋ : ℚ) - (rendered.offset_y : ℚ) := by
  have tx : ratTrunc glyph_x = ⌊glyph_x⌋ := if_pos hx
  have ty : ratTrunc glyph_y = ⌊glyph_y⌋ := if_pos hy
  constructor
  · show glyph_x + (rendered.offset_x : ℚ) - fractQ glyph_x = _
    rw [fractQ, tx]; ring
  · show glyph_y - (rendered.offset_y : ℚ) - fractQ glyph_y = _
    rw [fractQ, ty]; ring

/-- Fixture: a concrete cached glyph for the quad witnesses. -/
def r0 : RenderedGlyph := ⟨0, 2, 2, 1, 1, 0, 0, false⟩

/-- Witness for C10 at the concrete pen position (2, 3). -/
theorem quad_pixel_snapped_witness :
    (glyphQuad 2 3 (fractQ 2, fractQ 3) r0).x0 = (⌊(2:ℚ)⌋ : ℚ) + (r0.offset_x : ℚ) ∧
    (glyphQuad 2 3 (fractQ 2, fractQ 3) r0).y0 = (⌊(3:ℚ)⌋ : ℚ) - (r0.offset_y : ℚ) :=
  quad_pixel_snapped 2 3 r0 (by decide) (by decide)

/-! ### C3: allocation in a fresh atlas -/

/-- C3: a glyph bitmap no larger than TEXTURE_SIZE in either dimension always
fits in a freshly created empty atlas (at the origin), so the unwrap on the
fresh atlas's add_rect — and hence the whole placement — can never panic. -/
theorem fresh_atlas_allocation_succeeds (w h : Nat)
    (hw : w ≤ TEXTURE_SIZE) (hh : h ≤ TEXTURE_SIZE) :
    (Atlas.new TEXTURE_SIZE TEXTURE_SIZE).add_rect w h
      = some ((0, 0), ⟨TEXTURE_SIZE, TEXTURE_SIZE, [⟨h, w⟩]⟩) ∧
    ∀ st : St, placeGlyph st w h ≠ none := by
  have hfresh : (Atlas.new TEXTURE_SIZE TEXTURE_SIZE).add_rect w h
      = some ((0, 0), ⟨TEXTURE_SIZE, TEXTURE_SIZE, [⟨h, w⟩]⟩) := by
    unfold Atlas.add_rect Atlas.new addRectGo
    dsimp only
    rw [if_pos ⟨hw, by omega⟩]
  refine ⟨hfresh, ?_⟩
  intro st hcon
  unfold placeGlyph at hcon
  split at hcon
  · exact absurd hcon (by simp)
  next heq =>
    dsimp only [create_image] at hcon
    rw [hfresh] at hcon
    exact absurd hcon (by simp)

/-- Witness for C3 at the concrete rectangle 2 × 2. -/
theorem fresh_atlas_allocation_succeeds_witness :
    (Atlas.new TEXTURE_SIZE TEXTURE_SIZE).add_rect 2 2
      = some ((0, 0), ⟨TEXTURE_SIZE, TEXTURE_SIZE, [⟨2, 2⟩]⟩) ∧
    ∀ st : St, placeGlyph st 2 2 ≠ none :=
  fresh_atlas_allocation_succeeds 2 2 (by decide) (by decide)

/-! ### C8: oversized glyphs -/

/-- Well-formedness of an atlas of the texture pool: it was created with the
fixed TEXTURE_SIZE dimensions and every shelf fits inside the height. -/
def Atlas.wfsize (a : Atlas) : Prop :=
  a.width = TEXTURE_SIZE ∧ a.height = TEXTURE_SIZE ∧
    ∀ s ∈ a.shelves, s.h ≤ TEXTURE_SIZE

theorem addRectGo_oversized {w h : Nat} (hover : TEXTURE_SIZE < w ∨ TEXTURE_SIZE < h)
    (shelves : List Shelf) (hs : ∀ s ∈ shelves, s.h ≤ TEXTURE_SIZE) (curY : Nat) :
    addRectGo TEXTURE_SIZE TEXTURE_SIZE w h curY shelves = none := by
  induction shelves generalizing curY with
  | nil =>
    unfold addRectGo
    rw [if_neg]
    rintro ⟨h1, h2⟩
    omega
  | cons s rest ih =>
    unfold addRectGo
    rw [if_neg, ih (fun t ht => hs t (List.mem_cons_of_mem s ht)) (curY + s.h)]
    have hsh : s.h ≤ TEXTURE_SIZE := hs s (List.mem_cons_self s rest)
    rintro ⟨h1, h2⟩
    omega

theorem add_rect_oversized {a : Atlas} {w h : Nat} (ha : a.wfsize)
    (hover : TEXTURE_SIZE < w ∨ TEXTURE_SIZE < h) : a.add_rect w h = none := by
  obtain ⟨hw, hh, hs⟩ := ha
  unfold Atlas.add_rect
  rw [hw, hh, addRectGo_oversized hover a.shelves (by simpa [hh] using hs) 0]

theorem findFit_oversized {pool : List FontTexture} {w h : Nat}
    (hover : TEXTURE_SIZE < w ∨ TEXTURE_SIZE < h)
    (hwf : ∀ t ∈ pool, t.atlas.wfsize) : findFit pool w h = none := by
  induction pool with
  | nil => rfl
  | cons t rest ih =>
    unfold findFit
    rw [add_rect_oversized (hwf t (List.mem_cons_self t rest)) hover,
      ih (fun u hu => hwf u (List.mem_cons_of_mem t hu))]

/-- C8 counterexample: placement of an oversized glyph does terminate — on
the concrete 600 × 10 bitmap from the empty state it evaluates, in finitely
many steps, to the panic of the fresh atlas's add_rect unwrap (none), rather
than looping indefinitely. -/
theorem oversized_glyph_terminates_counterexample :
    placeGlyph emptySt 600 10 = none := rfl

/-- C8 amended: for a glyph bitmap wider or taller than TEXTURE_SIZE, with
every pool atlas of the fixed texture size, placement terminates by
panicking: every existing atlas refuses the rectangle, and the unwrap on the
brand-new atlas's add_rect fails. -/
theorem oversized_glyph_placement_panics (st : St) (w h : Nat)
    (hover : TEXTURE_SIZE < w ∨ TEXTURE_SIZE < h)
    (hwf : ∀ t ∈ st.cache.glyph_textures, t.atlas.wfsize) :
    placeGlyph st w h = none := by
  unfold placeGlyph
  rw [findFit_oversized hover hwf]
  dsimp only [create_image]
  rw [add_rect_oversized (a := Atlas.new TEXTURE_SIZE TEXTURE_SIZE)
    ⟨rfl, rfl, by intro s hs; exact absurd hs (by simp [Atlas.new])⟩ hover]

/-- Witness for the amended C8 on a 10 × 600 bitmap and the empty pool. -/
theorem oversized_glyph_placement_panics_witness :
    placeGlyph emptySt 10 600 = none :=
  oversized_glyph_placement_panics emptySt 10 600 (Or.inr (by decide))
    (by intro t ht; exact absurd ht (by simp [emptySt]))

/-! ### C4: scaler failure behavior -/

/-- C4 counterexample: when the external scaler produces no output for a
fresh fingerprint, resolution does not cache a blank entry and continue —
render_glyph's unwrap panics, aborting the computation (none), with no
cache entry stored at all. Shown at the concrete empty state and key0. -/
theorem raster_failure_no_blank_counterexample :
    resolveGlyph emptySt key0 none = none := rfl

/-- C4 amended: on a cache miss where the scaler cannot produce output, the
unwrap in render_glyph panics and the in-progress computation aborts with the
state discarded (no None entry is stored); only a glyph whose fingerprint is
already cached as None is skipped, leaving cache, atlas and canvas state
untouched. -/
theorem raster_failure_panics (st : St) (key : GlyphCacheKey) (s : Option SwashImage) :
    (lookupKey st.cache.rendered_glyphs key = none → resolveGlyph st key none = none) ∧
    (lookupKey st.cache.rendered_glyphs key = some none →
      resolveGlyph st key s = some (none, st)) := by
  constructor
  · intro hmiss
    unfold resolveGlyph
    rw [hmiss]
    rfl
  · intro hblank
    exact resolveGlyph_hit hblank

/-- Fixture: a state whose cache holds a blank entry for key0. -/
def blankSt : St := ⟨⟨[(key0, none)], []⟩, ⟨[], []⟩, 0⟩

/-- Witness for the amended C4: a miss with a failing scaler panics from the
empty state, and a cached blank is skipped without any state change. -/
theorem raster_failure_panics_witness :
    resolveGlyph emptySt key0 none = none ∧
    resolveGlyph blankSt key0 (some maskImg) = some (none, blankSt) :=
  ⟨(raster_failure_panics emptySt key0 none).1 rfl,
    (raster_failure_panics blankSt key0 (some maskImg)).2 rfl⟩

/-! ### C2: first-fit placement across the texture pool -/

theorem findFit_spec {pool : List FontTexture} {w h i x y : Nat}
    {pool2 : List FontTexture} (hf : findFit pool w h = some ((i, x, y), pool2)) :
    i < pool.length ∧
    (∀ j, j < i → (pool.getD j dflTex).atlas.add_rect w h = none) ∧
    ∃ a2, (pool.getD i dflTex).atlas.add_rect w h = some ((x, y), a2) ∧
      pool2 = pool.set i ⟨a2, (pool.getD i dflTex).image_id⟩ := by
  induction pool generalizing i x y pool2 with
  | nil => exact absurd hf (by simp [findFit])
  | cons t rest ih =>
    unfold findFit at hf
    split at hf
    next x2 y2 atlas2 heq =>
      simp only [Option.some.injEq, Prod.mk.injEq] at hf
      obtain ⟨⟨hi, hx, hy⟩, hp⟩ := hf
      subst hx hy
      subst hi
      refine ⟨by simp, fun j hj => absurd hj (by omega), atlas2, ?_, ?_⟩
      · simpa using heq
      · simpa using hp.symm
    next heq =>
      split at hf
      next i3 x3 y3 rest2 heq2 =>
        simp only [Option.some.injEq, Prod.mk.injEq] at hf
        obtain ⟨⟨hi, hx, hy⟩, hp⟩ := hf
        subst hx hy
        obtain ⟨hlt, hall, a2, hget, hset⟩ := ih heq2
        subst hi
        refine ⟨by simpa using Nat.succ_lt_succ hlt, ?_, a2, ?_, ?_⟩
        · intro j hj
          cases j with
          | zero => simpa using heq
          | succ j2 => simpa using hall j2 (by omega)
        · simpa using hget
        · simp only [List.getD_cons_succ, List.set_cons_succ, ← hp, hset]
      next heq2 => exact absurd hf (by simp)

theorem findFit_none {pool : List FontTexture} {w h : Nat}
    (hf : findFit pool w h = none) :
    ∀ j, j < pool.length → (pool.getD j dflTex).atlas.add_rect w h = none := by
  induction pool with
  | nil => intro j hj; exact absurd hj (by simp)
  | cons t rest ih =>
    unfold findFit at hf
    split at hf
    next x2 y2 atlas2 heq => exact absurd hf (by simp)
    next heq =>
      split at hf
      next => exact absurd hf (by simp)
      next heq2 =>
        intro j hj
        cases j with
        | zero => simpa using heq
        | succ j2 => simpa using ih heq2 j2 (by simpa using hj)

/-- C2: placement scans the pool's atlases in index order and allocates in
the first atlas whose add_rect succeeds, leaving every earlier atlas refused
and the rest of the pool untouched; only when every existing atlas refuses is
a brand-new TEXTURE_SIZE × TEXTURE_SIZE texture — initialized to fully
transparent pixels — created, appended at the end of the pool, and used for
the allocation. -/
theorem place_first_fit (st : St) (w h i x y : Nat) (st2 : St)
    (hp : placeGlyph st w h = some ((i, x, y), st2)) :
    (i < st.cache.glyph_textures.length ∧
      (∀ j, j < i → ((st.cache.glyph_textures.getD j dflTex).atlas.add_rect w h) = none) ∧
      (∃ a2, (st.cache.glyph_textures.getD i dflTex).atlas.add_rect w h = some ((x, y), a2) ∧
        st2.cache.glyph_textures = st.cache.glyph_textures.set i
          ⟨a2, (st.cache.glyph_textures.getD i dflTex).image_id⟩) ∧
      st2.canvas = st.canvas) ∨
    ((∀ j, j < st.cache.glyph_textures.length →
        ((st.cache.glyph_textures.getD j dflTex).atlas.add_rect w h) = none) ∧
      i = st.cache.glyph_textures.length ∧
      (∃ a2, (Atlas.new TEXTURE_SIZE TEXTURE_SIZE).add_rect w h = some ((x, y), a2) ∧
        st2.cache.glyph_textures = st.cache.glyph_textures ++
          [⟨a2, st.canvas.images.length⟩]) ∧
      st2.canvas.images = st.canvas.images ++ [freshImg] ∧
      freshImg.width = TEXTURE_SIZE ∧ freshImg.height = TEXTURE_SIZE ∧
      (∀ p ∈ freshImg.pixels, p = RGBA8.clear)) := by
  rcases placeGlyph_eq_some hp with ⟨pool2, hf, hst⟩ | ⟨hf, a2, ha, hi, hst⟩
  · obtain ⟨hlt, hall, a2, hget, hset⟩ := findFit_spec hf
    subst hst
    exact Or.inl ⟨hlt, hall, ⟨a2, hget, hset⟩, rfl⟩
  · subst hst
    exact Or.inr ⟨findFit_none hf, hi, ⟨a2, ha, rfl⟩, rfl, rfl, rfl,
      fun p hp2 => List.eq_of_mem_replicate hp2⟩

/-- Fixture: the concrete result of placing a 2 × 2 rect from the empty
state (the all-refuse branch: a fresh texture is created). -/
def placeRes : (Nat × Nat × Nat) × St :=
  (placeGlyph emptySt 2 2).getD ((0, 0, 0), emptySt)

/-- Witness for C2 at the concrete empty pool and a 2 × 2 rectangle. -/
theorem place_first_fit_witness :
    (placeRes.1.1 < emptySt.cache.glyph_textures.length ∧
      (∀ j, j < placeRes.1.1 →
        ((emptySt.cache.glyph_textures.getD j dflTex).atlas.add_rect 2 2) = none) ∧
      (∃ a2, (emptySt.cache.glyph_textures.getD placeRes.1.1 dflTex).atlas.add_rect 2 2
          = some ((placeRes.1.2.1, placeRes.1.2.2), a2) ∧
        placeRes.2.cache.glyph_textures = emptySt.cache.glyph_textures.set placeRes.1.1
          ⟨a2, (emptySt.cache.glyph_textures.getD placeRes.1.1 dflTex).image_id⟩) ∧
      placeRes.2.canvas = emptySt.canvas) ∨
    ((∀ j, j < emptySt.cache.glyph_textures.length →
        ((emptySt.cache.glyph_textures.getD j dflTex).atlas.add_rect 2 2) = none) ∧
      placeRes.1.1 = emptySt.cache.glyph_textures.length ∧
      (∃ a2, (Atlas.new TEXTURE_SIZE TEXTURE_SIZE).add_rect 2 2
          = some ((placeRes.1.2.1, placeRes.1.2.2), a2) ∧
        placeRes.2.cache.glyph_textures = emptySt.cache.glyph_textures ++
          [⟨a2, emptySt.canvas.images.length⟩]) ∧
      placeRes.2.canvas.images = emptySt.canvas.images ++ [freshImg] ∧
      freshImg.width = TEXTURE_SIZE ∧ freshImg.height = TEXTURE_SIZE ∧
      (∀ p ∈ freshImg.pixels, p = RGBA8.clear)) :=
  place_first_fit emptySt 2 2 placeRes.1.1 placeRes.1.2.1 placeRes.1.2.2 placeRes.2 (by rfl)

/-! ### C7: the texture pool is append-only -/

/-- The pool q extends the pool p: no texture was removed or reordered, and
every index valid in p still names the same texture (same GPU handle) in q. -/
def poolPrefix (p q : List FontTexture) : Prop :=
  p.length ≤ q.length ∧
    ∀ j, j < p.length → (q.getD j dflTex).image_id = (p.getD j dflTex).image_id

theorem poolPrefix_refl (p : List FontTexture) : poolPrefix p p :=
  ⟨le_refl _, fun _ _ => rfl⟩

theorem poolPrefix_trans {p q r : List FontTexture}
    (h1 : poolPrefix p q) (h2 : poolPrefix q r) : poolPrefix p r :=
  ⟨le_trans h1.1 h2.1, fun j hj => (h2.2 j (lt_of_lt_of_le hj h1.1)).trans (h1.2 j hj)⟩

/-- Every cached non-blank glyph names a valid pool index. -/
def cacheInv (st : St) : Prop :=
  ∀ k r, lookupKey st.cache.rendered_glyphs k = some (some r) →
    r.texture_index < st.cache.glyph_textures.length

theorem image_id_set (pool : List FontTexture) (i j : Nat) (a2 : Atlas) :
    (((pool.set i ⟨a2, (pool.getD i dflTex).image_id⟩).getD j dflTex)).image_id
      = (pool.getD j dflTex).image_id := by
  induction pool generalizing i j with
  | nil => simp
  | cons t rest ih =>
    cases i with
    | zero => cases j <;> simp
    | succ i2 =>
      cases j with
      | zero => simp
      | succ j2 => simpa using ih i2 j2

theorem placeGlyph_pool {st : St} {w h i x y : Nat} {st2 : St}
    (hp : placeGlyph st w h = some ((i, x, y), st2)) :
    poolPrefix st.cache.glyph_textures st2.cache.glyph_textures ∧
    i < st2.cache.glyph_textures.length ∧
    st2.cache.rendered_glyphs = st.cache.rendered_glyphs := by
  rcases placeGlyph_eq_some hp with ⟨pool2, hf, hst⟩ | ⟨hf, a2, ha, hi, hst⟩
  · obtain ⟨hlt, _, a2, hget, hset⟩ := findFit_spec hf
    subst hst
    refine ⟨⟨?_, ?_⟩, ?_, rfl⟩
    · simp [hset]
    · intro j hj
      rw [hset]
      exact image_id_set _ i j a2
    · simpa [hset] using hlt
  · subst hst hi
    refine ⟨⟨by simp, ?_⟩, by simp, rfl⟩
    intro j hj
    simp only
    rw [List.getD_append _ _ _ _ hj]

theorem missBody_pool {st : St} {s : Option SwashImage}
    {v : Option RenderedGlyph} {st2 : St} (h : missBody st s = some (v, st2)) :
    poolPrefix st.cache.glyph_textures st2.cache.glyph_textures ∧
    (∀ r, v = some r → r.texture_index < st2.cache.glyph_textures.length) := by
  obtain ⟨content, placement, is_color, i, ax, ay, st3, hr, hp, hv, hst⟩ := missBody_eq_some h
  obtain ⟨hpre, hibound, _⟩ := placeGlyph_pool hp
  subst hst
  refine ⟨hpre, ?_⟩
  intro r hr2
  rw [hv] at hr2
  injection hr2.symm with h2
  subst h2
  exact hibound

theorem resolveGlyph_preserves_lookup {st : St} {key : GlyphCacheKey}
    {s : Option SwashImage} {v : Option RenderedGlyph} {st1 : St}
    (h : resolveGlyph st key s = some (v, st1)) {k : GlyphCacheKey}
    {w : Option RenderedGlyph} (hk : lookupKey st.cache.rendered_glyphs k = some w) :
    lookupKey st1.cache.rendered_glyphs k = some w := by
  rcases resolveGlyph_eq_some h with ⟨_, hst⟩ | ⟨hl, st2, hm, hst⟩
  · subst hst; exact hk
  · obtain ⟨hcache, _⟩ := missBody_cache_and_calls hm
    subst hst
    show lookupKey (st2.cache.rendered_glyphs ++ [(key, v)]) k = some w
    rw [hcache]
    exact lookupKey_append_left hk

theorem resolveGlyph_lookup_self {st : St} {key : GlyphCacheKey}
    {s : Option SwashImage} {v : Option RenderedGlyph} {st1 : St}
    (h : resolveGlyph st key s = some (v, st1)) :
    lookupKey st1.cache.rendered_glyphs key = some v := by
  rcases resolveGlyph_eq_some h with ⟨hl, hst⟩ | ⟨hl, st2, hm, hst⟩
  · subst hst; exact hl
  · obtain ⟨hcache, _⟩ := missBody_cache_and_calls hm
    subst hst
    show lookupKey (st2.cache.rendered_glyphs ++ [(key, v)]) key = some v
    rw [hcache]
    exact lookupKey_append_self hl

theorem resolveGlyph_pool_inv {st : St} {key : GlyphCacheKey}
    {s : Option SwashImage} {v : Option RenderedGlyph} {st1 : St}
    (hinv : cacheInv st) (h : resolveGlyph st key s = some (v, st1)) :
    poolPrefix st.cache.glyph_textures st1.cache.glyph_textures ∧ cacheInv st1 ∧
    (∀ r, v = some r → r.texture_index < st1.cache.glyph_textures.length) := by
  rcases resolveGlyph_eq_some h with ⟨hl, hst⟩ | ⟨hl, st2, hm, hst⟩
  · subst hst
    exact ⟨poolPrefix_refl _, hinv, fun r hr => hinv key r (hr ▸ hl)⟩
  · obtain ⟨hpre, hbound⟩ := missBody_pool hm
    obtain ⟨hcache, _⟩ := missBody_cache_and_calls hm
    subst hst
    refine ⟨hpre, ?_, fun r hr => hbound r hr⟩
    intro k r hkr
    replace hkr : lookupKey (st2.cache.rendered_glyphs ++ [(key, v)]) k = some (some r) := hkr
    rcases lookupKey_append_cases hkr with hold | ⟨_, _, hv⟩
    · rw [hcache] at hold
      exact lt_of_lt_of_le (hinv k r hold) hpre.1
    · exact hbound r hv.symm

theorem runLoop_pool_inv (ctx : RunCtx) (gs : List Glyph) :
    ∀ st run_x am cm am2 cm2 st2 rx2, cacheInv st →
    runLoop ctx st run_x am cm gs = some (am2, cm2, st2, rx2) →
    poolPrefix st.cache.glyph_textures st2.cache.glyph_textures ∧ cacheInv st2 := by
  induction gs with
  | nil =>
    intro st run_x am cm am2 cm2 st2 rx2 hinv h
    simp only [runLoop, Option.some.injEq, Prod.mk.injEq] at h
    obtain ⟨_, _, hst, _⟩ := h
    subst hst
    exact ⟨poolPrefix_refl _, hinv⟩
  | cons g rest ih =>
    intro st run_x am cm am2 cm2 st2 rx2 hinv h
    unfold runLoop at h
    split at h
    · exact absurd h (by simp)
    next st3 heq =>
      obtain ⟨hpre, hinv3, _⟩ := resolveGlyph_pool_inv hinv heq
      obtain ⟨hpre2, hinv2⟩ := ih st3 _ am cm am2 cm2 st2 rx2 hinv3 h
      exact ⟨poolPrefix_trans hpre hpre2, hinv2⟩
    next rendered st3 heq =>
      obtain ⟨hpre, hinv3, _⟩ := resolveGlyph_pool_inv hinv heq
      dsimp only at h
      split at h <;>
        · obtain ⟨hpre2, hinv2⟩ := ih st3 _ _ _ am2 cm2 st2 rx2 hinv3 h
          exact ⟨poolPrefix_trans hpre hpre2, hinv2⟩

theorem runLoop_preserves_lookup (ctx : RunCtx) (gs : List Glyph) :
    ∀ st run_x am cm am2 cm2 st2 rx2,
    runLoop ctx st run_x am cm gs = some (am2, cm2, st2, rx2) →
    ∀ k w, lookupKey st.cache.rendered_glyphs k = some w →
      lookupKey st2.cache.rendered_glyphs k = some w := by
  induction gs with
  | nil =>
    intro st run_x am cm am2 cm2 st2 rx2 h k w hk
    simp only [runLoop, Option.some.injEq, Prod.mk.injEq] at h
    obtain ⟨_, _, hst, _⟩ := h
    subst hst
    exact hk
  | cons g rest ih =>
    intro st run_x am cm am2 cm2 st2 rx2 h k w hk
    unfold runLoop at h
    split at h
    · exact absurd h (by simp)
    next st3 heq =>
      exact ih st3 _ am cm am2 cm2 st2 rx2 h k w (resolveGlyph_preserves_lookup heq hk)
    next rendered st3 heq =>
      dsimp only at h
      split at h <;>
        exact ih st3 _ _ _ am2 cm2 st2 rx2 h k w (resolveGlyph_preserves_lookup heq hk)

theorem render_glyph_run_eq_some {ctx : RunCtx} {st : St} {glyphs : List Glyph}
    {cmds : GlyphDrawCommands} {st2 : St}
    (h : render_glyph_run ctx st glyphs = some (cmds, st2)) :
    ∃ am cm rx2, runLoop ctx st ctx.run_offset [] [] glyphs = some (am, cm, st2, rx2) ∧
      cmds = ⟨am.map Prod.snd, cm.map Prod.snd⟩ := by
  unfold render_glyph_run at h
  split at h
  · exact absurd h (by simp)
  next am cm st3 rx2 heq =>
    simp only [Option.some.injEq, Prod.mk.injEq] at h
    exact ⟨am, cm, rx2, h.2 ▸ heq, h.1.symm⟩

/-- C7: over a whole glyph run, the texture pool is append-only: its length
never shrinks, every texture index valid before still names the texture with
the same GPU image handle afterwards, and every cached non-blank glyph's
stored texture_index remains a valid index into the pool. -/
theorem pool_append_only (ctx : RunCtx) (st : St) (glyphs : List Glyph)
    (cmds : GlyphDrawCommands) (st2 : St) (hinv : cacheInv st)
    (h : render_glyph_run ctx st glyphs = some (cmds, st2)) :
    poolPrefix st.cache.glyph_textures st2.cache.glyph_textures ∧ cacheInv st2 := by
  obtain ⟨am, cm, rx2, hrun, _⟩ := render_glyph_run_eq_some h
  exact runLoop_pool_inv ctx glyphs st ctx.run_offset [] [] am cm st2 rx2 hinv hrun

/-! ### C5: one draw command per used (texture, kind) pair -/

/-- Append a key to a key list unless already present: the effect of an
entry().or_insert_with() on the map's key set. -/
def listInsertNew (l : List Nat) (t : Nat) : List Nat :=
  if t ∈ l then l else l ++ [t]

theorem cmdInsert_keys (m : CmdMap) (ti image_id : Nat) (q : Quad) :
    List.map Prod.fst (cmdInsert m ti image_id q)
      = listInsertNew (List.map Prod.fst m) ti := by
  induction m with
  | nil => simp [cmdInsert, listInsertNew]
  | cons p rest ih =>
    obtain ⟨k, c⟩ := p
    by_cases hk : k = ti
    · subst hk
      simp [cmdInsert, listInsertNew]
    · simp only [cmdInsert, if_neg hk, List.map_cons, ih, listInsertNew, List.mem_cons]
      by_cases ht : ti ∈ List.map Prod.fst rest
      · simp [ht, hk, Ne.symm hk]
      · simp [ht, hk, Ne.symm hk]

theorem cmdInsert_length (m : CmdMap) (ti image_id : Nat) (q : Quad) :
    List.length (cmdInsert m ti image_id q)
      = List.length (listInsertNew (List.map Prod.fst m) ti) := by
  have h := congrArg List.length (cmdInsert_keys m ti image_id q)
  simpa using h

theorem nodup_listInsertNew {acc : List Nat} (t : Nat) (h : acc.Nodup) :
    (listInsertNew acc t).Nodup := by
  unfold listInsertNew
  split_ifs with ht
  · exact h
  · simp [List.nodup_append, h, ht]

theorem nodup_foldl_listInsertNew (l : List Nat) :
    ∀ acc : List Nat, acc.Nodup → (l.foldl listInsertNew acc).Nodup := by
  induction l with
  | nil => intro acc h; exact h
  | cons t rest ih =>
    intro acc h
    rw [List.foldl_cons]
    exact ih _ (nodup_listInsertNew t h)

theorem toFinset_foldl_listInsertNew (l : List Nat) :
    ∀ acc : List Nat, (l.foldl listInsertNew acc).toFinset = acc.toFinset ∪ l.toFinset := by
  induction l with
  | nil => intro acc; simp
  | cons t rest ih =>
    intro acc
    rw [List.foldl_cons, ih]
    ext a
    simp only [listInsertNew]
    split_ifs with ht
    · simp only [Finset.mem_union, List.mem_toFinset, List.toFinset_cons, Finset.mem_insert]
      constructor
      · rintro (ha | ha)
        · exact Or.inl ha
        · exact Or.inr (Or.inr ha)
      · rintro (ha | rfl | ha)
        · exact Or.inl ha
        · exact Or.inl ht
        · exact Or.inr ha
    · simp only [Finset.mem_union, List.mem_toFinset, List.mem_append,
        List.toFinset_cons, Finset.mem_insert, List.mem_singleton]
      tauto

theorem length_foldl_listInsertNew (l : List Nat) :
    (l.foldl listInsertNew []).length = l.toFinset.card := by
  have hn := nodup_foldl_listInsertNew l [] (by simp)
  have ht := toFinset_foldl_listInsertNew l []
  rw [← List.toFinset_card_of_nodup hn, ht]
  simp

theorem runLoop_usedPairs (ctx : RunCtx) (gs : List Glyph) :
    ∀ st run_x am cm am2 cm2 st2 rx2,
    runLoop ctx st run_x am cm gs = some (am2, cm2, st2, rx2) →
    ∃ ps, usedPairs ctx st run_x gs = some (ps, st2) ∧
      List.map Prod.fst am2
        = ((ps.filter fun p => !p.2).map Prod.fst).foldl listInsertNew (List.map Prod.fst am) ∧
      List.map Prod.fst cm2
        = ((ps.filter fun p => p.2).map Prod.fst).foldl listInsertNew (List.map Prod.fst cm) := by
  induction gs with
  | nil =>
    intro st run_x am cm am2 cm2 st2 rx2 h
    simp only [runLoop, Option.some.injEq, Prod.mk.injEq] at h
    obtain ⟨ham, hcm, hst, _⟩ := h
    subst ham hcm hst
    exact ⟨[], rfl, by simp, by simp⟩
  | cons g rest ih =>
    intro st run_x am cm am2 cm2 st2 rx2 h
    unfold runLoop at h
    split at h
    · exact absurd h (by simp)
    next st3 heq =>
      obtain ⟨ps, hu, ham, hcm⟩ := ih st3 _ am cm am2 cm2 st2 rx2 h
      refine ⟨ps, ?_, ham, hcm⟩
      unfold usedPairs
      rw [heq]
      exact hu
    next rendered st3 heq =>
      dsimp only at h
      split at h
      next hcol =>
        obtain ⟨ps, hu, ham, hcm⟩ := ih st3 _ _ _ am2 cm2 st2 rx2 h
        have hstep : usedPairs ctx st run_x (g :: rest) =
            some ((rendered.texture_index, rendered.color_glyph) :: ps, st2) := by
          unfold usedPairs
          simp only [heq, hu]
        refine ⟨(rendered.texture_index, rendered.color_glyph) :: ps, ?_, ?_, ?_⟩
        · rw [hstep]
        · simpa [hcol] using ham
        · rw [hcm, cmdInsert_keys]
          simp [hcol]
      next hcol =>
        obtain ⟨ps, hu, ham, hcm⟩ := ih st3 _ _ _ am2 cm2 st2 rx2 h
        have hcol2 : rendered.color_glyph = false := by
          cases hb : rendered.color_glyph
          · rfl
          · exact absurd hb hcol
        have hstep : usedPairs ctx st run_x (g :: rest) =
            some ((rendered.texture_index, rendered.color_glyph) :: ps, st2) := by
          unfold usedPairs
          simp only [heq, hu]
        refine ⟨(rendered.texture_index, rendered.color_glyph) :: ps, ?_, ?_, ?_⟩
        · rw [hstep]
        · rw [ham, cmdInsert_keys]
          simp [hcol2]
        · simpa [hcol2] using hcm

/-- C5: the run emits exactly one DrawCommand per distinct (texture index,
kind) pair among the glyphs the run actually draws — the alpha command count
is the number of distinct textures used by non-color glyphs and the color
command count the number of distinct textures used by color glyphs. -/
theorem batching_one_command_per_used_pair (ctx : RunCtx) (st : St)
    (glyphs : List Glyph) (cmds : GlyphDrawCommands) (st2 : St)
    (h : render_glyph_run ctx st glyphs = some (cmds, st2)) :
    ∃ ps, usedPairs ctx st ctx.run_offset glyphs = some (ps, st2) ∧
      cmds.alpha_glyphs.length = ((ps.filter fun p => !p.2).map Prod.fst).toFinset.card ∧
      cmds.color_glyphs.length = ((ps.filter fun p => p.2).map Prod.fst).toFinset.card := by
  obtain ⟨am, cm, rx2, hrun, hc⟩ := render_glyph_run_eq_some h
  obtain ⟨ps, hu, ham, hcm⟩ := runLoop_usedPairs ctx glyphs st ctx.run_offset [] [] am cm st2 rx2 hrun
  refine ⟨ps, hu, ?_, ?_⟩
  · have h1 : cmds.alpha_glyphs.length = (List.map Prod.fst am).length := by
      rw [hc]; simp
    rw [h1, ham]
    simpa using length_foldl_listInsertNew (((ps.filter fun p => !p.2).map Prod.fst))
  · have h1 : cmds.color_glyphs.length = (List.map Prod.fst cm).length := by
      rw [hc]; simp
    rw [h1, hcm]
    simpa using length_foldl_listInsertNew (((ps.filter fun p => p.2).map Prod.fst))

/-- Fixture: a scaler that always produces the 2 × 2 mask. -/
def scaler0 : Nat → ℚ × ℚ → Option SwashImage := fun _ _ => some maskImg

/-- Fixture: a concrete run context at the origin with baseline 10. -/
def ctx0 : RunCtx := ⟨0, 0, 0, 10, 0, 16, scaler0⟩

/-- Fixture: a one-glyph run. -/
def g0 : Glyph := ⟨1, 0, 0, 10⟩

/-- Fixture: the result of the one-glyph run from the empty state. -/
def runRes : GlyphDrawCommands × St :=
  (render_glyph_run ctx0 emptySt [g0]).getD (⟨[], []⟩, emptySt)

/-- Witness for C5 on the concrete one-glyph run. -/
theorem batching_one_command_per_used_pair_witness :
    ∃ ps, usedPairs ctx0 emptySt ctx0.run_offset [g0] = some (ps, runRes.2) ∧
      runRes.1.alpha_glyphs.length = ((ps.filter fun p => !p.2).map Prod.fst).toFinset.card ∧
      runRes.1.color_glyphs.length = ((ps.filter fun p => p.2).map Prod.fst).toFinset.card :=
  batching_one_command_per_used_pair ctx0 emptySt [g0] runRes.1 runRes.2 (by rfl)

/-! ### C9: re-emitting the identical run is idempotent -/

theorem runLoop_replay (ctx : RunCtx) (gs : List Glyph) :
    ∀ st run_x am cm am2 cm2 st2 rx2, cacheInv st →
    runLoop ctx st run_x am cm gs = some (am2, cm2, st2, rx2) →
    runLoop ctx st2 run_x am cm gs = some (am2, cm2, st2, rx2) := by
  induction gs with
  | nil =>
    intro st run_x am cm am2 cm2 st2 rx2 hinv h
    simp only [runLoop, Option.some.injEq, Prod.mk.injEq] at h
    obtain ⟨ham, hcm, hst, hrx⟩ := h
    subst hst ham hcm hrx
    rfl
  | cons g rest ih =>
    intro st run_x am cm am2 cm2 st2 rx2 hinv h
    unfold runLoop at h
    split at h
    · exact absurd h (by simp)
    next st3 heq =>
      have hinv3 : cacheInv st3 := (resolveGlyph_pool_inv hinv heq).2.1
      have hlook2 : lookupKey st2.cache.rendered_glyphs (keyOf ctx run_x g) = some none :=
        runLoop_preserves_lookup ctx rest st3 _ am cm am2 cm2 st2 rx2 h _ _
          (resolveGlyph_lookup_self heq)
      have hhit : resolveGlyph st2 (keyOf ctx run_x g)
          (ctx.scaler g.id (offsetOf ctx run_x g)) = some (none, st2) :=
        resolveGlyph_hit hlook2
      unfold runLoop
      simp only [hhit]
      exact ih st3 _ am cm am2 cm2 st2 rx2 hinv3 h
    next rendered st3 heq =>
      have hpi := resolveGlyph_pool_inv hinv heq
      have hinv3 : cacheInv st3 := hpi.2.1
      have hti : rendered.texture_index < st3.cache.glyph_textures.length :=
        hpi.2.2 rendered rfl
      dsimp only at h
      split at h
      next hcol =>
        have hpre2 : poolPrefix st3.cache.glyph_textures st2.cache.glyph_textures :=
          (runLoop_pool_inv ctx rest st3 _ _ _ am2 cm2 st2 rx2 hinv3 h).1
        have himg : imageIdAt st2 rendered.texture_index
            = imageIdAt st3 rendered.texture_index := hpre2.2 _ hti
        have hlook2 : lookupKey st2.cache.rendered_glyphs (keyOf ctx run_x g)
            = some (some rendered) :=
          runLoop_preserves_lookup ctx rest st3 _ _ _ am2 cm2 st2 rx2 h _ _
            (resolveGlyph_lookup_self heq)
        have hhit : resolveGlyph st2 (keyOf ctx run_x g)
            (ctx.scaler g.id (offsetOf ctx run_x g)) = some (some rendered, st2) :=
          resolveGlyph_hit hlook2
        rw [← himg] at h
        unfold runLoop
        simp only [hhit, hcol, if_true]
        exact ih st3 _ _ _ am2 cm2 st2 rx2 hinv3 h
      next hcol =>
        have hpre2 : poolPrefix st3.cache.glyph_textures st2.cache.glyph_textures :=
          (runLoop_pool_inv ctx rest st3 _ _ _ am2 cm2 st2 rx2 hinv3 h).1
        have himg : imageIdAt st2 rendered.texture_index
            = imageIdAt st3 rendered.texture_index := hpre2.2 _ hti
        have hlook2 : lookupKey st2.cache.rendered_glyphs (keyOf ctx run_x g)
            = some (some rendered) :=
          runLoop_preserves_lookup ctx rest st3 _ _ _ am2 cm2 st2 rx2 h _ _
            (resolveGlyph_lookup_self heq)
        have hhit : resolveGlyph st2 (keyOf ctx run_x g)
            (ctx.scaler g.id (offsetOf ctx run_x g)) = some (some rendered, st2) :=
          resolveGlyph_hit hlook2
        rw [← himg] at h
        unfold runLoop
        simp only [hhit, hcol, if_false, Bool.false_eq_true, ite_false]
        exact ih st3 _ _ _ am2 cm2 st2 rx2 hinv3 h

/-- Replay along the determinized insertion-order emission: re-running the
identical run from the post-run state reproduces the same command maps
(hence commands, in the same one admissible order) and the same state. -/
theorem reemit_idempotent (ctx : RunCtx) (st : St) (glyphs : List Glyph)
    (cmds : GlyphDrawCommands) (st2 : St) (hinv : cacheInv st)
    (h : render_glyph_run ctx st glyphs = some (cmds, st2)) :
    render_glyph_run ctx st2 glyphs = some (cmds, st2) := by
  obtain ⟨am, cm, rx2, hrun, hc⟩ := render_glyph_run_eq_some h
  have hrep := runLoop_replay ctx glyphs st ctx.run_offset [] [] am cm st2 rx2 hinv hrun
  unfold render_glyph_run
  rw [hrep, hc]

/-- An explicit proof that the empty state satisfies the cache invariant. -/
theorem cacheInv_emptySt : cacheInv emptySt := by
  intro k r hkr
  simp [emptySt, lookupKey] at hkr

/-- The determinized run is one admissible emission. -/
theorem runEmits_of_run {ctx : RunCtx} {st : St} {glyphs : List Glyph}
    {cmds : GlyphDrawCommands} {st2 : St}
    (h : render_glyph_run ctx st glyphs = some (cmds, st2)) :
    RunEmits ctx st glyphs cmds st2 := by
  obtain ⟨am, cm, rx2, hrun, hc⟩ := render_glyph_run_eq_some h
  subst hc
  exact ⟨am, cm, rx2, hrun, List.Perm.refl _, List.Perm.refl _⟩

/-- Fixture: a full-texture 512 × 512 monochrome scaler output. -/
def maskBig : SwashImage :=
  ⟨⟨0, 0, 512, 512⟩, Content.Mask, List.replicate (512 * 512) 0⟩

/-- Fixture: a scaler whose glyph 1 fills a whole texture and whose other
glyphs are the small 2 × 2 mask, forcing a run across two textures. -/
def scaler1 : Nat → ℚ × ℚ → Option SwashImage :=
  fun gid _ => if gid = 1 then some maskBig else some maskImg

/-- Fixture: a run context using the two-texture scaler. -/
def ctx1 : RunCtx := ⟨0, 0, 0, 10, 0, 16, scaler1⟩

/-- Fixture: a two-glyph run whose two glyphs land in two textures. -/
def glyphs1 : List Glyph := [⟨1, 0, 0, 10⟩, ⟨2, 0, 0, 10⟩]

/-- Fixture: the deterministic result of the two-texture run. -/
def run2Res : GlyphDrawCommands × St :=
  (render_glyph_run ctx1 emptySt glyphs1).getD (⟨[], []⟩, emptySt)

/-- Fixture: the same commands with the two alpha DrawCommands emitted in
the opposite map-iteration order. -/
def swappedCmds : GlyphDrawCommands :=
  ⟨run2Res.1.alpha_glyphs.reverse, run2Res.1.color_glyphs⟩

/-- The opposite iteration order is an admissible second-pass emission. -/
theorem runEmits_swapped : RunEmits ctx1 run2Res.2 glyphs1 swappedCmds run2Res.2 := by
  have hrep : render_glyph_run ctx1 run2Res.2 glyphs1 = some (run2Res.1, run2Res.2) :=
    reemit_idempotent ctx1 emptySt glyphs1 run2Res.1 run2Res.2 cacheInv_emptySt (by rfl)
  obtain ⟨am, cm, rx2, hrun, hc⟩ := render_glyph_run_eq_some hrep
  refine ⟨am, cm, rx2, hrun, ?_, ?_⟩
  · show (run2Res.1.alpha_glyphs.reverse).Perm (am.map Prod.snd)
    rw [hc]
    exact List.reverse_perm _
  · show (run2Res.1.color_glyphs).Perm (cm.map Prod.snd)
    rw [hc]

/-- C9 counterexample: on a concrete two-glyph run spread across two
textures, a first pass may emit the two alpha DrawCommands in one order and
the second pass — over a fresh, independently seeded HashMap — in the other:
both are admissible emissions with the identical final state, yet the two
command outputs are not byte-identical. -/
theorem reemit_byte_identical_counterexample :
    RunEmits ctx1 emptySt glyphs1 run2Res.1 run2Res.2 ∧
    RunEmits ctx1 run2Res.2 glyphs1 swappedCmds run2Res.2 ∧
    swappedCmds ≠ run2Res.1 := by
  refine ⟨runEmits_of_run (by rfl), runEmits_swapped, ?_⟩
  intro h
  have h2 := congrArg (fun c => (c.alpha_glyphs.getD 0 ⟨0, []⟩).image_id) h
  exact absurd h2 (by decide)

/-- C9 amended: re-emitting the identical glyph run from the state left by a
first emission leaves the state — in particular the rendered-glyph cache and
its entry count — exactly unchanged (no duplicate entries accumulate), and
emits the same draw commands up to the order of whole DrawCommands within
each kind (each command itself identical, quads in identical order); the
order of commands within a kind may differ between passes because each pass
iterates a fresh, unspecified-order HashMap. -/
theorem reemit_idempotent_up_to_order (ctx : RunCtx) (st : St) (glyphs : List Glyph)
    (c1 c2 : GlyphDrawCommands) (st2 st3 : St) (hinv : cacheInv st)
    (h1 : RunEmits ctx st glyphs c1 st2) (h2 : RunEmits ctx st2 glyphs c2 st3) :
    st3 = st2 ∧ c2.alpha_glyphs.Perm c1.alpha_glyphs ∧
      c2.color_glyphs.Perm c1.color_glyphs := by
  obtain ⟨am, cm, rx2, hrun, hpa, hpc⟩ := h1
  obtain ⟨am2, cm2, rx3, hrun2, hpa2, hpc2⟩ := h2
  have hrep := runLoop_replay ctx glyphs st ctx.run_offset [] [] am cm st2 rx2 hinv hrun
  rw [hrep] at hrun2
  simp only [Option.some.injEq, Prod.mk.injEq] at hrun2
  obtain ⟨ham, hcm, hst, _⟩ := hrun2
  subst ham hcm hst
  exact ⟨rfl, hpa2.trans hpa.symm, hpc2.trans hpc.symm⟩

/-- Witness for the amended C9 on the concrete two-texture run, with the
second pass emitting the opposite command order. -/
theorem reemit_idempotent_up_to_order_witness :
    run2Res.2 = run2Res.2 ∧
      swappedCmds.alpha_glyphs.Perm run2Res.1.alpha_glyphs ∧
      swappedCmds.color_glyphs.Perm run2Res.1.color_glyphs :=
  reemit_idempotent_up_to_order ctx1 emptySt glyphs1 run2Res.1 swappedCmds
    run2Res.2 run2Res.2 cacheInv_emptySt (runEmits_of_run (by rfl)) runEmits_swapped

/-- Witness for C7 on the concrete one-glyph run from the empty state. -/
theorem pool_append_only_witness :
    poolPrefix emptySt.cache.glyph_textures runRes.2.cache.glyph_textures ∧
      cacheInv runRes.2 :=
  pool_append_only ctx0 emptySt [g0] runRes.1 runRes.2 cacheInv_emptySt (by rfl)

end TextCanvas
